/-
Verification of the motion-planning and path-following subsystem of the
Autonomous-Vehicle-Motion-Planning-Simulator repository.

The Python sources are shallowly embedded over the real numbers:
  * config.py        -> numeric constants (Config namespace)
  * car_enhanced.py  -> CarS / Car.update (kinematic model)
  * path_follower.py -> PPCtrl / PurePursuitController methods
  * path_planner.py  -> RNode / RRTPlanner methods

Python floats are idealised as real numbers; Python object mutation is
modelled by explicit state passing; `random` draws are modelled by an
explicit list of sampled target points (one per loop iteration); the
scipy spline fit (external library code) is abstracted as an oracle
parameter whose `none` result models the exception caught by the
`except` block.  Particle/drawing code is visualization-only and is out
of the specified scope, so it is omitted from the embedded state.
-/
import Mathlib

noncomputable section

namespace AVSim

/-! ## Constants from config.py -/

/-- config.CAR_WIDTH = 20 -/
def CAR_WIDTH : ℝ := 20

/-- config.CAR_LENGTH = 35 -/
def CAR_LENGTH : ℝ := 35

/-- config.CAR_MAX_SPEED = 2.5 -/
def CAR_MAX_SPEED : ℝ := 2.5

/-- config.CAR_MAX_STEERING = 45 (degrees) -/
def CAR_MAX_STEERING : ℝ := 45

/-! ## Numeric helpers shared by the sources (numpy functions) -/

/-- np.radians: degrees to radians. -/
def radians (d : ℝ) : ℝ := d * Real.pi / 180

/-- np.degrees: radians to degrees. -/
def degrees (r : ℝ) : ℝ := r * 180 / Real.pi

/-- np.clip(v, lo, hi), equivalent to min(max(v, lo), hi). -/
def clip (v lo hi : ℝ) : ℝ := min (max v lo) hi

/-- np.arctan2(y, x): the standard two-argument arctangent. -/
def arctan2 (y x : ℝ) : ℝ :=
  if 0 < x then Real.arctan (y / x)
  else if x < 0 ∧ 0 ≤ y then Real.arctan (y / x) + Real.pi
  else if x < 0 ∧ y < 0 then Real.arctan (y / x) - Real.pi
  else if x = 0 ∧ 0 < y then Real.pi / 2
  else if x = 0 ∧ y < 0 then -(Real.pi / 2)
  else 0

/-- Python float modulo `a % b`: `a - b * floor(a / b)` (result has the
sign of `b`; for `b > 0` it lies in `[0, b)`). -/
def pymod (a b : ℝ) : ℝ := a - b * (⌊a / b⌋ : ℤ)

/-- Euclidean distance, as computed by `_distance(x1, y1, x2, y2)` in both
path_planner.py and path_follower.py: `sqrt((x2-x1)**2 + (y2-y1)**2)`. -/
def distR (x1 y1 x2 y2 : ℝ) : ℝ := Real.sqrt ((x2 - x1) ^ 2 + (y2 - y1) ^ 2)

/-! ## Kinematic model: car_enhanced.py, class Car -/

/-- Mutable state of a `Car` object (visual/particle fields omitted:
they are rendering-only and outside the specified core). -/
structure CarS where
  x : ℝ
  y : ℝ
  angle : ℝ
  velocity : ℝ
  steering_angle : ℝ
  left_wheel_velocity : ℝ
  right_wheel_velocity : ℝ

/-- Source `self.wheelbase = self.length * 0.7` with `self.length = config.CAR_LENGTH`. -/
def wheelbase : ℝ := CAR_LENGTH * 0.7

/-- Source `self.track_width = self.width * 0.9` with `self.width = config.CAR_WIDTH`. -/
def track_width : ℝ := CAR_WIDTH * 0.9

/-- The angle normalisation line of Car.update:
`self.angle = (self.angle + 180) % 360 - 180`. -/
def wrapAngle (a : ℝ) : ℝ := pymod (a + 180) 360 - 180

/-- Car.update(dt) from car_enhanced.py (the active, uncommented version):
Ackermann steering with differential wheel-speed readout.  Tire-mark
particles are rendering-only and omitted. -/
def Car.update (c : CarS) (dt : ℝ) : CarS :=
  if |c.velocity| > 0.1 then
    let δ := radians c.steering_angle
    let θ := radians c.angle
    let wlr : ℝ × ℝ × ℝ :=
      if |δ| > 0.001 then
        let turning_radius := wheelbase / Real.tan δ
        let inner_radius := turning_radius - track_width / 2
        let outer_radius := turning_radius + track_width / 2
        let lw_rw : ℝ × ℝ :=
          if 0 < turning_radius then
            (c.velocity * (inner_radius / turning_radius),
             c.velocity * (outer_radius / turning_radius))
          else
            (c.velocity * (outer_radius / |turning_radius|),
             c.velocity * (inner_radius / |turning_radius|))
        (lw_rw.1, lw_rw.2, c.velocity / turning_radius)
      else
        (c.velocity, c.velocity, 0)
    { c with
      x := c.x + c.velocity * Real.cos θ * dt
      y := c.y + c.velocity * Real.sin θ * dt
      angle := wrapAngle (c.angle + degrees wlr.2.2 * dt)
      left_wheel_velocity := wlr.1
      right_wheel_velocity := wlr.2.1 }
  else
    { c with left_wheel_velocity := 0, right_wheel_velocity := 0 }

/-! ## Pure Pursuit controller: path_follower.py, class PurePursuitController

Object state (`lookahead_distance`, `path`, `current_waypoint_index`) is
threaded explicitly; methods that mutate `self` return the new state. -/

/-- Mutable state of a `PurePursuitController` object. -/
structure PPCtrl where
  lookahead_distance : ℝ
  path : List (ℝ × ℝ)
  current_waypoint_index : ℕ

/-- Constructor `PurePursuitController.__init__(lookahead_distance=40)`. -/
def PP.init (lookahead_distance : ℝ) : PPCtrl :=
  { lookahead_distance := lookahead_distance, path := [], current_waypoint_index := 0 }

/-- Method `set_path(path)`: replace the path, reset the waypoint index to 0. -/
def PP.set_path (st : PPCtrl) (path : List (ℝ × ℝ)) : PPCtrl :=
  { st with path := path, current_waypoint_index := 0 }

/-- The `for i in range(self.current_waypoint_index, len(self.path))` loop of
`_get_lookahead_point`, written as structural recursion over the list suffix
`path.drop current_waypoint_index` while carrying the absolute index `i`.
Returns the first waypoint at distance ≥ lookahead together with the new
value `max(0, i-1)` assigned to `current_waypoint_index`. -/
def lookaheadScan (cx cy ld : ℝ) : List (ℝ × ℝ) → ℕ → Option ((ℝ × ℝ) × ℕ)
  | [], _ => none
  | wp :: rest, i =>
    if distR cx cy wp.1 wp.2 ≥ ld then some (wp, max 0 (i - 1))
    else lookaheadScan cx cy ld rest (i + 1)

/-- Method `_get_lookahead_point(car)`: `None` on an empty path; otherwise scan
forward from `current_waypoint_index`, mutating it when a far-enough
waypoint is found; fall back to the last waypoint. -/
def PP.get_lookahead_point (car : CarS) (st : PPCtrl) : Option (ℝ × ℝ) × PPCtrl :=
  if st.path.isEmpty then (none, st)
  else
    match lookaheadScan car.x car.y st.lookahead_distance
        (st.path.drop st.current_waypoint_index) st.current_waypoint_index with
    | some (wp, j) => (some wp, { st with current_waypoint_index := j })
    | none => (some (st.path.getLastD (0, 0)), st)

/-- Method `calculate_steering(car)`: pure-pursuit steering in degrees, clipped to
`[-CAR_MAX_STEERING, CAR_MAX_STEERING]`.  Returns the value together with
the controller state left behind by the lookahead search. -/
def PP.calculate_steering (car : CarS) (st : PPCtrl) : ℝ × PPCtrl :=
  if st.path.isEmpty then (0, st)
  else
    match PP.get_lookahead_point car st with
    | (none, st') => (0, st')
    | (some wp, st') =>
      let dx := wp.1 - car.x
      let dy := wp.2 - car.y
      let car_angle_rad := radians car.angle
      let local_x := dx * Real.cos (-car_angle_rad) - dy * Real.sin (-car_angle_rad)
      let local_y := dx * Real.sin (-car_angle_rad) + dy * Real.cos (-car_angle_rad)
      let alpha := arctan2 local_y local_x
      let steering_angle := arctan2 (2 * wheelbase * Real.sin alpha) st.lookahead_distance
      (clip (degrees steering_angle) (-CAR_MAX_STEERING) CAR_MAX_STEERING, st')

/-- Method `is_path_complete(car, threshold=50)`: true on an empty path, else true
iff the distance to the final waypoint is below the threshold. -/
def PP.is_path_complete (car : CarS) (st : PPCtrl) (threshold : ℝ) : Bool :=
  match st.path.getLast? with
  | none => true
  | some g => decide (distR car.x car.y g.1 g.2 < threshold)

/-- Method `calculate_speed(car, target_speed=None)`: slows for sharp turns; once
the path is complete and the goal is within 100 units, returns
`target_speed * min(0.5, distance_to_goal / 100)` (the turn factor is not
applied on that branch).  The `none` fallback of the inner match is
unreachable when the path is non-empty (the source indexes `self.path[-1]`,
which would raise on an empty path). -/
def PP.calculate_speed (car : CarS) (st : PPCtrl) (target : Option ℝ) : ℝ × PPCtrl :=
  let target_speed := target.getD CAR_MAX_SPEED
  let sr := PP.calculate_steering car st
  let angle_factor := 1 - |sr.1| / CAR_MAX_STEERING * 0.5
  if PP.is_path_complete car st 50 then
    match st.path.getLast? with
    | some g =>
      let distance_to_goal := distR car.x car.y g.1 g.2
      if distance_to_goal < 100 then
        (target_speed * min 0.5 (distance_to_goal / 100), sr.2)
      else (target_speed * angle_factor, sr.2)
    | none => (target_speed * angle_factor, sr.2)
  else (target_speed * angle_factor, sr.2)

/-- Method `get_progress(car)`: the ratio `current_waypoint_index / (len(path) - 1)`, and 1.0
for paths of length ≤ 1. -/
def PP.get_progress (st : PPCtrl) : ℝ :=
  if st.path.isEmpty ∨ st.path.length ≤ 1 then 1.0
  else (st.current_waypoint_index : ℝ) / ((st.path.length : ℝ) - 1)

/-! ## Environment obstacles: environment_enhanced.py

Both `Obstacle` (axis-aligned rectangle, top-left corner x,y) and
`CircleObstacle` (center x,y) define a `contains_point` method, so the
planner's `hasattr(obstacle, 'contains_point')` guard passes for every
obstacle; `hasattr(obstacle, 'radius')` distinguishes circles from
rectangles.  This is modelled as a tagged variant. -/

/-- An obstacle: rectangle `Obstacle(x, y, width, height)` or circle
`CircleObstacle(x, y, radius)`. -/
inductive Obst where
  | rect (x y width height : ℝ)
  | circle (x y radius : ℝ)

/-- The `Environment` fields read by the planner. -/
structure Env where
  width : ℝ
  height : ℝ
  obstacles : List Obst

/-! ## RRT planner: path_planner.py, class RRTPlanner

Python `Node` objects form a parent-linked DAG: the parent reference is
assigned exactly once, at creation, to a node already in the tree, so the
chain is acyclic by construction; it is embedded as an inductive type.
A root is `Node(x, y)` with `parent = None` and `cost = 0.0`. -/

/-- A node of the RRT tree. -/
inductive RNode where
  | root (x y : ℝ)
  | child (x y cost : ℝ) (parent : RNode)

/-- The `x` attribute of a node. -/
def RNode.x : RNode → ℝ
  | .root x _ => x
  | .child x _ _ _ => x

/-- The `y` attribute of a node. -/
def RNode.y : RNode → ℝ
  | .root _ y => y
  | .child _ y _ _ => y

/-- The `cost` attribute of a node (0.0 for a root, as set by `Node.__init__`). -/
def RNode.cost : RNode → ℝ
  | .root _ _ => 0
  | .child _ _ c _ => c

/-- Position (x, y) of a node. -/
def RNode.pos (n : RNode) : ℝ × ℝ := (n.x, n.y)

/-- Position of the root reached by following parent references. -/
def RNode.rootPos : RNode → ℝ × ℝ
  | .root x y => (x, y)
  | .child _ _ _ p => p.rootPos

/-- The `while current is not None` walk of `_extract_path`: positions from
the given node back to the root. -/
def extract_collect : RNode → List (ℝ × ℝ)
  | .root x y => [(x, y)]
  | .child x y _ p => (x, y) :: extract_collect p

/-- Method `_extract_path(goal_node)`: walk parent references collecting positions,
then reverse into start-to-goal order. -/
def extract_path (n : RNode) : List (ℝ × ℝ) := (extract_collect n).reverse

/-- The scan of `_get_nearest_node`: keep the current best node, replacing it
only on a strictly smaller distance (ties keep the earlier node, matching
the `dist < min_dist` update). -/
def nearestFold (x y : ℝ) : RNode → List RNode → RNode
  | best, [] => best
  | best, m :: ms =>
    if distR m.x m.y x y < distR best.x best.y x y then nearestFold x y m ms
    else nearestFold x y best ms

/-- Method `_get_nearest_node(x, y)`: linear scan over `self.nodes` starting from
`min_dist = inf, nearest = None`; on a non-empty list the first node always
beats `inf`, so the result is the fold over the tail seeded with the head. -/
def get_nearest_node (nodes : List RNode) (x y : ℝ) : Option RNode :=
  match nodes with
  | [] => none
  | n :: ns => some (nearestFold x y n ns)

/-- Method `_point_near_obstacle(x, y, obstacle, radius)`: for a circle (an object
with a `radius` attribute), distance to center < obstacle.radius + radius;
for a rectangle, containment in the rectangle expanded by `radius`. -/
def point_near_obstacle (x y : ℝ) (o : Obst) (radius : ℝ) : Bool :=
  match o with
  | .circle ox oy orad =>
    decide (Real.sqrt ((x - ox) ^ 2 + (y - oy) ^ 2) < orad + radius)
  | .rect ox oy owidth oheight =>
    let expanded_x := ox - radius
    let expanded_y := oy - radius
    let expanded_width := owidth + 2 * radius
    let expanded_height := oheight + 2 * radius
    decide (expanded_x ≤ x ∧ x ≤ expanded_x + expanded_width ∧
            expanded_y ≤ y ∧ y ≤ expanded_y + expanded_height)

/-- Method `_is_path_clear(x1, y1, x2, y2, num_checks=10)`: sample `num_checks + 1`
points `t = i / num_checks` along the segment; reject if any sample is
within `car_radius` of the workspace boundary or near any obstacle, where
`car_radius = max(CAR_WIDTH, CAR_LENGTH) / 2 + 5`.  The early-return loop
is written as `List.all`; both obstacle classes have `contains_point`, so
the `hasattr` guard never skips an obstacle. -/
def is_path_clear (env : Env) (x1 y1 x2 y2 : ℝ) (num_checks : ℕ) : Bool :=
  (List.range (num_checks + 1)).all fun i =>
    let t := (i : ℝ) / (num_checks : ℝ)
    let x := x1 + t * (x2 - x1)
    let y := y1 + t * (y2 - y1)
    let car_radius := max CAR_WIDTH CAR_LENGTH / 2 + 5
    if x < car_radius ∨ x > env.width - car_radius then false
    else if y < car_radius ∨ y > env.height - car_radius then false
    else env.obstacles.all fun o => !point_near_obstacle x y o car_radius

/-- Method `_extend_tree(from_node, to_x, to_y)`: step from the nearest node towards
the sample by `min(step_size, dist)`; reject zero-length directions and
colliding edges; otherwise create the child node with
`cost = from_node.cost + distance(from_node, new point)`. -/
def extend_tree (env : Env) (step_size : ℝ) (from_node : RNode) (to_x to_y : ℝ) :
    Option RNode :=
  let dx := to_x - from_node.x
  let dy := to_y - from_node.y
  let dist := Real.sqrt (dx ^ 2 + dy ^ 2)
  if dist = 0 then none
  else
    let new_x := from_node.x + dx / dist * min step_size dist
    let new_y := from_node.y + dy / dist * min step_size dist
    if is_path_clear env from_node.x from_node.y new_x new_y 10 then
      some (.child new_x new_y
        (from_node.cost + distR from_node.x from_node.y new_x new_y) from_node)
    else none

/-- Planner tuning read in `RRTPlanner.__init__` (step size from config,
goal threshold hard-coded to 35). -/
structure RRTParams where
  step_size : ℝ
  goal_threshold : ℝ

/-- The `for i in range(self.max_iterations)` loop of `plan`, one recursive
step per sampled target point.  The random draws (goal-bias coin plus
uniform x, y) are modelled by the pre-supplied list `samples` of per-
iteration target points; its length plays the role of `max_iterations`.
The visualization callback must not mutate tree state and is omitted.
Returns the `plan` return value together with the final `self.nodes`.
The `none` branch of `get_nearest_node` is unreachable: the node list is
never empty (the root is inserted before the loop). -/
def planLoop (env : Env) (prm : RRTParams) (gx gy : ℝ) :
    List (ℝ × ℝ) → List RNode → Option (List (ℝ × ℝ)) × List RNode
  | [], nodes => (none, nodes)
  | (rx, ry) :: rest, nodes =>
    match get_nearest_node nodes rx ry with
    | none => (none, nodes)
    | some nearest_node =>
      match extend_tree env prm.step_size nearest_node rx ry with
      | none => planLoop env prm gx gy rest nodes
      | some new_node =>
        let nodes' := nodes ++ [new_node]
        if distR new_node.x new_node.y gx gy < prm.goal_threshold then
          (some (extract_path new_node ++ [(gx, gy)]), nodes')
        else planLoop env prm gx gy rest nodes'

/-- Method `plan(start_x, start_y, goal_x, goal_y)`: initialise `self.nodes` with the
start node, then run the growth loop.  Returns `(path-or-None, final nodes)`. -/
def plan (env : Env) (prm : RRTParams) (start_x start_y goal_x goal_y : ℝ)
    (samples : List (ℝ × ℝ)) : Option (List (ℝ × ℝ)) × List RNode :=
  planLoop env prm goal_x goal_y samples [RNode.root start_x start_y]

/-- Method `smooth_path(path, smoothness)`: paths with fewer than 3 points are
returned unchanged; otherwise the scipy B-spline fit runs inside
`try/except` and any failure falls back to the original path.  The fit
(splprep/splev, external library code) is abstracted as the oracle `fit`,
whose `none` result models the caught exception; the function is total, so
no exception escapes. -/
def smooth_path (fit : List (ℝ × ℝ) → ℝ → Option (List (ℝ × ℝ)))
    (path : List (ℝ × ℝ)) (smoothness : ℝ) : List (ℝ × ℝ) :=
  if path.length < 3 then path
  else
    match fit path smoothness with
    | some sp => sp
    | none => path

/-! ## Spec-side statements (written from the specification's words, to be
compared with the code-derived definitions above) -/

/-- Spec wording of `point_near_obstacle`: for a circle, true if the distance
to the center is `< obstacle.radius + radius`; for a rectangle, true if the
point lies within the axis-aligned bounding box expanded by `radius` on all
sides. -/
def point_near_obstacle_spec (x y : ℝ) (o : Obst) (radius : ℝ) : Prop :=
  match o with
  | .circle ox oy orad => distR x y ox oy < orad + radius
  | .rect ox oy owidth oheight =>
    ox - radius ≤ x ∧ x ≤ ox + owidth + radius ∧
    oy - radius ≤ y ∧ y ≤ oy + oheight + radius

/-- Spec wording of segment clearance with the default `numSamples = 10`:
each of the 11 equally spaced sample points `t = i/10` (both endpoints
included) lies inside the workspace bounds inset by the clearance radius
(x and y each at least the radius away from every boundary) and is not
`point_near_obstacle` for any obstacle. -/
def segment_clear_spec (env : Env) (x1 y1 x2 y2 : ℝ) : Prop :=
  ∀ i : ℕ, i ≤ 10 →
    let t := (i : ℝ) / 10
    let x := x1 + t * (x2 - x1)
    let y := y1 + t * (y2 - y1)
    let radius := max CAR_WIDTH CAR_LENGTH / 2 + 5
    (radius ≤ x ∧ x ≤ env.width - radius ∧ radius ≤ y ∧ y ≤ env.height - radius) ∧
    ∀ o ∈ env.obstacles, ¬ point_near_obstacle_spec x y o radius

/-- The tree cost invariant along a parent chain: every non-root node's cost
equals its parent's cost plus the Euclidean distance to its parent. -/
def costOk : RNode → Prop
  | .root _ _ => True
  | .child x y c p => c = p.cost + distR p.x p.y x y ∧ costOk p

/-! ## Helper lemmas -/

/-- Distance between two points with equal second coordinate. -/
theorem distR_same_y (x1 c x2 : ℝ) : distR x1 c x2 c = |x2 - x1| := by
  unfold distR
  rw [show (x2 - x1) ^ 2 + (c - c) ^ 2 = (x2 - x1) ^ 2 by ring]
  exact Real.sqrt_sq_eq_abs _

/-- The distance from the origin to (24, 32) is exactly 40. -/
theorem distR_24_32 : distR 0 0 24 32 = 40 := by
  unfold distR
  rw [show ((24 : ℝ) - 0) ^ 2 + ((32 : ℝ) - 0) ^ 2 = 40 ^ 2 by norm_num]
  rw [Real.sqrt_sq (by norm_num : (0 : ℝ) ≤ 40)]

/-- Python float modulo by a positive divisor lands in `[0, b)`. -/
theorem pymod_bounds (a b : ℝ) (hb : 0 < b) : 0 ≤ pymod a b ∧ pymod a b < b := by
  unfold pymod
  have h : a - b * (⌊a / b⌋ : ℤ) = b * Int.fract (a / b) := by
    unfold Int.fract
    field_simp
  rw [h]
  constructor
  · exact mul_nonneg hb.le (Int.fract_nonneg _)
  · calc b * Int.fract (a / b) < b * 1 :=
          (mul_lt_mul_left hb).mpr (Int.fract_lt_one _)
      _ = b := mul_one b

/-- The angle wrap of Car.update always lands in `[-180, 180)`. -/
theorem wrapAngle_mem (a : ℝ) : -180 ≤ wrapAngle a ∧ wrapAngle a < 180 := by
  unfold wrapAngle
  have h := pymod_bounds (a + 180) 360 (by norm_num)
  constructor <;> linarith [h.1, h.2]

/-- The lookahead scan never assigns an index smaller than the scan's start
index minus one: the found index `i` is at least the start, and the stored
value is `max 0 (i - 1)`. -/
theorem lookaheadScan_idx_ge (cx cy ld : ℝ) (l : List (ℝ × ℝ)) :
    ∀ i wp j, lookaheadScan cx cy ld l i = some (wp, j) → i ≤ j + 1 := by
  induction l with
  | nil => intro i wp j h; simp [lookaheadScan] at h
  | cons p rest ih =>
    intro i wp j h
    by_cases hc : distR cx cy p.1 p.2 ≥ ld
    · simp only [lookaheadScan, if_pos hc, Option.some.injEq, Prod.mk.injEq] at h
      omega
    · simp only [lookaheadScan, if_neg hc] at h
      have := ih (i + 1) wp j h
      omega

/-- The lookahead search leaves the waypoint index no more than one below
its previous value. -/
theorem get_lookahead_idx_ge (car : CarS) (st : PPCtrl) :
    st.current_waypoint_index ≤
      ((PP.get_lookahead_point car st).2).current_waypoint_index + 1 := by
  unfold PP.get_lookahead_point
  split
  · exact Nat.le_succ _
  · cases hscan : lookaheadScan car.x car.y st.lookahead_distance
      (st.path.drop st.current_waypoint_index) st.current_waypoint_index with
    | none => simp [hscan]
    | some r =>
      obtain ⟨wp, j⟩ := r
      simpa [hscan] using lookaheadScan_idx_ge _ _ _ _ _ _ _ hscan

/-- Method `calculate_steering` leaves the waypoint index no more than one below its
previous value. -/
theorem calculate_steering_idx_ge (car : CarS) (st : PPCtrl) :
    st.current_waypoint_index ≤
      ((PP.calculate_steering car st).2).current_waypoint_index + 1 := by
  unfold PP.calculate_steering
  split
  · exact Nat.le_succ _
  · cases hlp : PP.get_lookahead_point car st with
    | mk opt st' =>
      have := get_lookahead_idx_ge car st
      rw [hlp] at this
      cases opt <;> simpa using this

/-- Method `calculate_speed` leaves behind exactly the controller state produced by
its internal `calculate_steering` call. -/
theorem calculate_speed_state (car : CarS) (st : PPCtrl) (target : Option ℝ) :
    (PP.calculate_speed car st target).2 = (PP.calculate_steering car st).2 := by
  unfold PP.calculate_speed
  dsimp only
  split
  · split
    · split <;> rfl
    · rfl
  · rfl

/-- The collected parent walk is never empty. -/
theorem extract_collect_ne_nil (n : RNode) : extract_collect n ≠ [] := by
  cases n <;> simp [extract_collect]

/-- The first collected position is the node's own position. -/
theorem extract_collect_head (n : RNode) : (extract_collect n).head? = some n.pos := by
  cases n <;> simp [extract_collect, RNode.pos, RNode.x, RNode.y]

/-- The last collected position is the root's position. -/
theorem extract_collect_getLast (n : RNode) :
    (extract_collect n).getLast? = some n.rootPos := by
  induction n with
  | root x y => simp [extract_collect, RNode.rootPos]
  | child x y c p ih =>
    obtain ⟨b, l, hb⟩ : ∃ b l, extract_collect p = b :: l := by
      cases hp : extract_collect p with
      | nil => exact absurd hp (extract_collect_ne_nil p)
      | cons b l => exact ⟨b, l, rfl⟩
    simp only [extract_collect, RNode.rootPos, hb]
    rw [List.getLast?_cons_cons, ← hb, ih]

/-- The extracted path starts at the root position. -/
theorem extract_path_head (n : RNode) : (extract_path n).head? = some n.rootPos := by
  unfold extract_path
  rw [List.head?_reverse]
  exact extract_collect_getLast n

/-- The extracted path ends at the node's own position. -/
theorem extract_path_getLast (n : RNode) : (extract_path n).getLast? = some n.pos := by
  unfold extract_path
  rw [List.getLast?_reverse]
  exact extract_collect_head n

/-- The extracted path is the root position followed by some tail. -/
theorem extract_path_cons (n : RNode) : ∃ t, extract_path n = n.rootPos :: t := by
  have h := extract_path_head n
  cases hp : extract_path n with
  | nil => rw [hp] at h; simp at h
  | cons a t =>
    rw [hp] at h
    simp only [List.head?_cons, Option.some.injEq] at h
    exact ⟨t, by rw [h]⟩

/-- The nearest-node fold returns one of its candidates. -/
theorem nearestFold_mem (x y : ℝ) (l : List RNode) :
    ∀ best, nearestFold x y best l ∈ best :: l := by
  induction l with
  | nil => intro best; simp [nearestFold]
  | cons m ms ih =>
    intro best
    unfold nearestFold
    split
    · have := ih m
      simp only [List.mem_cons] at this ⊢
      tauto
    · have := ih best
      simp only [List.mem_cons] at this ⊢
      tauto

/-- Method `_get_nearest_node` returns a member of the tree. -/
theorem get_nearest_node_mem (nodes : List RNode) (x y : ℝ) (m : RNode)
    (h : get_nearest_node nodes x y = some m) : m ∈ nodes := by
  cases nodes with
  | nil => simp [get_nearest_node] at h
  | cons n ns =>
    simp only [get_nearest_node, Option.some.injEq] at h
    rw [← h]
    exact nearestFold_mem x y ns n

/-- A successful tree extension produces a child of the given node whose cost
is the parent's cost plus the distance to the new point. -/
theorem extend_tree_eq (env : Env) (step : ℝ) (fromN : RNode) (tx ty : ℝ)
    (n : RNode) (h : extend_tree env step fromN tx ty = some n) :
    ∃ nx ny, n = RNode.child nx ny (fromN.cost + distR fromN.x fromN.y nx ny) fromN := by
  unfold extend_tree at h
  dsimp only at h
  split at h
  · exact absurd h (by simp)
  · split at h
    · simp only [Option.some.injEq] at h
      exact ⟨_, _, h.symm⟩
    · exact absurd h (by simp)

/-- Loop invariant for `plan`: if every tree node's root position is the
start, any returned path begins at the start and ends at the goal. -/
theorem planLoop_result (env : Env) (prm : RRTParams) (gx gy sx sy : ℝ) :
    ∀ (samples : List (ℝ × ℝ)) (nodes : List RNode),
      (∀ n ∈ nodes, n.rootPos = (sx, sy)) →
      ∀ p, (planLoop env prm gx gy samples nodes).1 = some p →
        p.head? = some (sx, sy) ∧ p.getLast? = some (gx, gy) := by
  intro samples
  induction samples with
  | nil => intro nodes hinv p hp; simp [planLoop] at hp
  | cons s rest ih =>
    intro nodes hinv p hp
    obtain ⟨rx, ry⟩ := s
    unfold planLoop at hp
    cases hnear : get_nearest_node nodes rx ry with
    | none => rw [hnear] at hp; simp at hp
    | some nearest =>
      rw [hnear] at hp
      dsimp only at hp
      cases hext : extend_tree env prm.step_size nearest rx ry with
      | none => rw [hext] at hp; exact ih nodes hinv p hp
      | some newN =>
        rw [hext] at hp
        dsimp only at hp
        have hroot : newN.rootPos = (sx, sy) := by
          obtain ⟨nx, ny, rfl⟩ := extend_tree_eq env prm.step_size nearest rx ry newN hext
          simpa [RNode.rootPos] using
            hinv nearest (get_nearest_node_mem nodes rx ry nearest hnear)
        by_cases hgoal : distR newN.x newN.y gx gy < prm.goal_threshold
        · rw [if_pos hgoal] at hp
          simp only [Option.some.injEq] at hp
          subst hp
          constructor
          · obtain ⟨t, ht⟩ := extract_path_cons newN
            rw [ht]
            simp [hroot]
          · rw [List.getLast?_concat]
        · rw [if_neg hgoal] at hp
          refine ih (nodes ++ [newN]) ?_ p hp
          intro n hn
          rcases List.mem_append.1 hn with hn | hn
          · exact hinv n hn
          · simp only [List.mem_singleton] at hn
            rw [hn]
            exact hroot

/-- Loop invariant for `plan`: the cost bookkeeping of `_extend_tree`
preserves the cost-equation invariant for every node in the tree. -/
theorem planLoop_costOk (env : Env) (prm : RRTParams) (gx gy : ℝ) :
    ∀ (samples : List (ℝ × ℝ)) (nodes : List RNode),
      (∀ n ∈ nodes, costOk n) →
      ∀ n ∈ (planLoop env prm gx gy samples nodes).2, costOk n := by
  intro samples
  induction samples with
  | nil => intro nodes hinv n hn; simpa [planLoop] using hinv n (by simpa [planLoop] using hn)
  | cons s rest ih =>
    intro nodes hinv n hn
    obtain ⟨rx, ry⟩ := s
    unfold planLoop at hn
    cases hnear : get_nearest_node nodes rx ry with
    | none => rw [hnear] at hn; exact hinv n hn
    | some nearest =>
      rw [hnear] at hn
      dsimp only at hn
      cases hext : extend_tree env prm.step_size nearest rx ry with
      | none => rw [hext] at hn; exact ih nodes hinv n hn
      | some newN =>
        rw [hext] at hn
        dsimp only at hn
        have hnew : costOk newN := by
          obtain ⟨nx, ny, rfl⟩ := extend_tree_eq env prm.step_size nearest rx ry newN hext
          exact ⟨rfl, hinv nearest (get_nearest_node_mem nodes rx ry nearest hnear)⟩
        have hinv' : ∀ m ∈ nodes ++ [newN], costOk m := by
          intro m hm
          rcases List.mem_append.1 hm with hm | hm
          · exact hinv m hm
          · simp only [List.mem_singleton] at hm
            rw [hm]
            exact hnew
        by_cases hgoal : distR newN.x newN.y gx gy < prm.goal_threshold
        · rw [if_pos hgoal] at hn
          exact hinv' n hn
        · rw [if_neg hgoal] at hn
          exact ih (nodes ++ [newN]) hinv' n hn

/-! ## Concrete instances used by witnesses and counterexamples -/

/-- A car heading exactly 180°, moving straight (steering 0) at speed 1. -/
def c4car : CarS := ⟨0, 0, 180, 1, 0, 0, 0⟩

/-- A stationary car (speed 0) with nonzero steering and stale wheel speeds. -/
def c8car : CarS := ⟨5, 7, 30, 0, 12, 3, 4⟩

/-! ## Claim theorems -/

/-- C4 counterexample: at heading 180° with steering 0, speed 1 and dt 1,
the kinematic update wraps the heading to exactly −180°, which is outside
the claimed half-open interval (−180°, 180°]. -/
theorem c4_counterexample :
    |c4car.velocity| > 0.1 ∧ (Car.update c4car 1).angle = -180 ∧
      ¬ (-180 < (Car.update c4car 1).angle ∧ (Car.update c4car 1).angle ≤ 180) := by
  have h : (Car.update c4car 1).angle = -180 := by
    simp only [Car.update, c4car]
    norm_num [radians, degrees, wrapAngle, pymod, Int.floor_one]
  refine ⟨by norm_num [c4car], h, ?_⟩
  rw [h]
  intro hc
  exact absurd hc.1 (by norm_num)

/-- C4 (amended): for every state with |speed| > 0.1 and every dt, the
updated heading lies in the half-open interval [−180°, 180°): Python's
`(angle + 180) % 360 - 180` returns values in [−180, 180), attaining −180
and never +180 (the spec's interval (−180°, 180°] has the wrong ends). -/
theorem c4_heading_wrap_range (c : CarS) (dt : ℝ) (h : |c.velocity| > 0.1) :
    -180 ≤ (Car.update c dt).angle ∧ (Car.update c dt).angle < 180 := by
  unfold Car.update
  rw [if_pos h]
  exact wrapAngle_mem _

/-- C4 witness: the amended range theorem applied to the concrete moving car. -/
theorem c4_heading_wrap_range_witness :
    |c4car.velocity| > 0.1 ∧
      (-180 ≤ (Car.update c4car 1).angle ∧ (Car.update c4car 1).angle < 180) :=
  ⟨by norm_num [c4car], c4_heading_wrap_range c4car 1 (by norm_num [c4car])⟩

/-- C8: whenever |speed| ≤ 0.1, the kinematic update leaves position,
heading, speed and steering angle unchanged and zeroes both wheel speeds. -/
theorem c8_stationary_update (c : CarS) (dt : ℝ) (h : |c.velocity| ≤ 0.1) :
    (Car.update c dt).x = c.x ∧ (Car.update c dt).y = c.y ∧
    (Car.update c dt).angle = c.angle ∧
    (Car.update c dt).velocity = c.velocity ∧
    (Car.update c dt).steering_angle = c.steering_angle ∧
    (Car.update c dt).left_wheel_velocity = 0 ∧
    (Car.update c dt).right_wheel_velocity = 0 := by
  unfold Car.update
  rw [if_neg (not_lt.mpr h)]
  exact ⟨rfl, rfl, rfl, rfl, rfl, rfl, rfl⟩

/-- C8 witness: the stationary-update theorem at a concrete car with speed 0
and stale nonzero wheel speeds. -/
theorem c8_stationary_update_witness :
    |c8car.velocity| ≤ 0.1 ∧
      ((Car.update c8car 1).x = c8car.x ∧ (Car.update c8car 1).y = c8car.y ∧
       (Car.update c8car 1).angle = c8car.angle ∧
       (Car.update c8car 1).velocity = c8car.velocity ∧
       (Car.update c8car 1).steering_angle = c8car.steering_angle ∧
       (Car.update c8car 1).left_wheel_velocity = 0 ∧
       (Car.update c8car 1).right_wheel_velocity = 0) :=
  ⟨by norm_num [c8car], c8_stationary_update c8car 1 (by norm_num [c8car])⟩

/-- C9: for every node (parent chains are acyclic by construction in the
inductive embedding), `_extract_path` returns a start-to-goal sequence whose
first element is the root's position and whose last element is the node's
own position. -/
theorem c9_extract_path_endpoints (n : RNode) :
    (extract_path n).head? = some n.rootPos ∧
      (extract_path n).getLast? = some n.pos :=
  ⟨extract_path_head n, extract_path_getLast n⟩

/-- C7: `smooth_path` returns its input unchanged when the path has fewer
than 3 points or when the spline fit fails (the oracle returns `none`,
modelling the caught exception); being a total function, it lets no
exception escape. -/
theorem c7_smooth_path_degenerate
    (fit : List (ℝ × ℝ) → ℝ → Option (List (ℝ × ℝ)))
    (path : List (ℝ × ℝ)) (s : ℝ)
    (h : path.length < 3 ∨ fit path s = none) :
    smooth_path fit path s = path := by
  unfold smooth_path
  rcases h with h | h
  · rw [if_pos h]
  · by_cases h3 : path.length < 3
    · rw [if_pos h3]
    · rw [if_neg h3, h]

/-- C7 witness: a one-point path under an always-failing fit oracle is
returned unchanged. -/
theorem c7_smooth_path_degenerate_witness :
    ([((0 : ℝ), (0 : ℝ))].length < 3 ∨
        (fun (_ : List (ℝ × ℝ)) (_ : ℝ) => (none : Option (List (ℝ × ℝ))))
          [(0, 0)] 1 = none) ∧
      smooth_path (fun _ _ => none) [((0 : ℝ), (0 : ℝ))] 1 = [(0, 0)] :=
  ⟨Or.inl (by norm_num),
   c7_smooth_path_degenerate (fun _ _ => none) [(0, 0)] 1 (Or.inl (by norm_num))⟩

/-- C3: whatever target points the random source supplies, `plan` either
returns no path (a normal outcome, the first component being `none`) or a
waypoint list starting exactly at the start and ending exactly at the
appended goal. -/
theorem c3_plan_endpoints (env : Env) (prm : RRTParams)
    (sx sy gx gy : ℝ) (samples : List (ℝ × ℝ)) (p : List (ℝ × ℝ))
    (h : (plan env prm sx sy gx gy samples).1 = some p) :
    p.head? = some (sx, sy) ∧ p.getLast? = some (gx, gy) := by
  refine planLoop_result env prm gx gy sx sy samples [RNode.root sx sy] ?_ p h
  intro n hn
  simp only [List.mem_singleton] at hn
  rw [hn]
  rfl

/-- C6: every node of the tree left behind by a run of `plan` satisfies the
cost equation `cost = parent.cost + distance(node, parent)` along its whole
parent chain; costs are set once at creation in `_extend_tree` and the
functional embedding never mutates them. -/
theorem c6_tree_cost_invariant (env : Env) (prm : RRTParams)
    (sx sy gx gy : ℝ) (samples : List (ℝ × ℝ)) (n : RNode)
    (h : n ∈ (plan env prm sx sy gx gy samples).2) : costOk n := by
  refine planLoop_costOk env prm gx gy samples [RNode.root sx sy] ?_ n h
  intro m hm
  simp only [List.mem_singleton] at hm
  rw [hm]
  trivial

/-- C2 (amended): a single `calculate_steering` call can lower
`current_waypoint_index` by at most one: the scan starts at the current
index i₀, so the first admissible waypoint index i satisfies i ≥ i₀ and the
assignment `max(0, i-1)` yields at least i₀ − 1.  (The original claim of
full monotonicity fails, see the counterexample.) -/
theorem c2_index_drops_at_most_one (car : CarS) (st : PPCtrl) :
    st.current_waypoint_index ≤
      ((PP.calculate_steering car st).2).current_waypoint_index + 1 :=
  calculate_steering_idx_ge car st

/-- The code-side obstacle proximity test agrees with the spec's wording:
strict disk inflation for circles, expanded bounding box for rectangles. -/
theorem point_near_obstacle_iff (x y r : ℝ) (o : Obst) :
    point_near_obstacle x y o r = true ↔ point_near_obstacle_spec x y o r := by
  cases o with
  | circle ox oy orad =>
    simp only [point_near_obstacle, point_near_obstacle_spec, distR, decide_eq_true_eq]
    rw [show (ox - x) ^ 2 + (oy - y) ^ 2 = (x - ox) ^ 2 + (y - oy) ^ 2 by ring]
  | rect ox oy ow oh =>
    simp only [point_near_obstacle, point_near_obstacle_spec, decide_eq_true_eq]
    constructor
    · rintro ⟨h1, h2, h3, h4⟩
      exact ⟨h1, by linarith, h3, by linarith⟩
    · rintro ⟨h1, h2, h3, h4⟩
      exact ⟨h1, by linarith, h3, by linarith⟩

/-- Pointwise form of one iteration of the `_is_path_clear` loop. -/
theorem clear_sample_iff (env : Env) (x y c : ℝ) :
    ((if x < c ∨ x > env.width - c then false
      else if y < c ∨ y > env.height - c then false
      else env.obstacles.all fun o => !point_near_obstacle x y o c) = true) ↔
      ((c ≤ x ∧ x ≤ env.width - c ∧ c ≤ y ∧ y ≤ env.height - c) ∧
        ∀ o ∈ env.obstacles, ¬ point_near_obstacle_spec x y o c) := by
  by_cases hA : x < c ∨ x > env.width - c
  · rw [if_pos hA]
    simp only [Bool.false_eq_true, false_iff, not_and]
    rintro ⟨h1, h2, _, _⟩ _
    rcases hA with hA | hA <;> linarith
  · rw [if_neg hA]
    push_neg at hA
    by_cases hB : y < c ∨ y > env.height - c
    · rw [if_pos hB]
      simp only [Bool.false_eq_true, false_iff, not_and]
      rintro ⟨_, _, h3, h4⟩ _
      rcases hB with hB | hB <;> linarith
    · rw [if_neg hB]
      push_neg at hB
      rw [List.all_eq_true]
      constructor
      · intro hall
        refine ⟨⟨hA.1, hA.2, hB.1, hB.2⟩, ?_⟩
        intro o ho hspec
        have := hall o ho
        rw [Bool.not_eq_true', ← Bool.not_eq_true] at this
        exact this ((point_near_obstacle_iff x y c o).mpr hspec)
      · rintro ⟨_, hno⟩ o ho
        rw [Bool.not_eq_true', ← Bool.not_eq_true]
        intro hnear
        exact hno o ho ((point_near_obstacle_iff x y c o).mp hnear)

/-- The code's `_is_path_clear` with the default 10 samples agrees with the
spec's description of segment clearance. -/
theorem is_path_clear_iff (env : Env) (x1 y1 x2 y2 : ℝ) :
    is_path_clear env x1 y1 x2 y2 10 = true ↔
      segment_clear_spec env x1 y1 x2 y2 := by
  unfold is_path_clear segment_clear_spec
  rw [List.all_eq_true]
  constructor
  · intro hall i hi
    have hm : i ∈ List.range (10 + 1) := List.mem_range.mpr (Nat.lt_succ_of_le hi)
    have := hall i hm
    dsimp only at this ⊢
    exact (clear_sample_iff env _ _ _).mp (by exact_mod_cast this)
  · intro hspec i hm
    have hi : i ≤ 10 := Nat.lt_succ_iff.mp (List.mem_range.mp hm)
    have := hspec i hi
    dsimp only at this ⊢
    exact (clear_sample_iff env _ _ _).mpr (by exact_mod_cast this)

/-- C5: segment clearance checking with the default numSamples = 10 accepts
a segment iff each of the 11 equally spaced sample points lies inside the
workspace bounds inset by the clearance radius and is near no obstacle, in
the spec's sense of `point_near_obstacle`. -/
theorem c5_segment_clear_iff (env : Env) (x1 y1 x2 y2 : ℝ) :
    is_path_clear env x1 y1 x2 y2 10 = true ↔
      segment_clear_spec env x1 y1 x2 y2 :=
  is_path_clear_iff env x1 y1 x2 y2

/-! ## A concrete successful planning run (obstacle-free 200×200 workspace,
start (100,100), goal (105,100), a single sample hitting the goal) -/

/-- Obstacle-free 200×200 workspace. -/
def envFree : Env := ⟨200, 200, []⟩

/-- Planner tuning as configured: step size 25, goal threshold 35. -/
def prm0 : RRTParams := ⟨25, 35⟩

/-- The inline clearance radius evaluates to 22.5. -/
theorem car_radius_val : max CAR_WIDTH CAR_LENGTH / 2 + 5 = (22.5 : ℝ) := by
  rw [CAR_WIDTH, CAR_LENGTH, max_eq_right (by norm_num : (20 : ℝ) ≤ 35)]
  norm_num

/-- Square root of 25. -/
theorem sqrt25 : Real.sqrt 25 = 5 := by
  rw [show (25 : ℝ) = 5 ^ 2 by norm_num, Real.sqrt_sq (by norm_num : (0 : ℝ) ≤ 5)]

/-- The segment (100,100)–(105,100) is clear in the free workspace. -/
theorem clear_run : is_path_clear envFree 100 100 105 100 10 = true := by
  rw [is_path_clear_iff]
  intro i hi
  have h0 : (0 : ℝ) ≤ (i : ℝ) := Nat.cast_nonneg i
  have h10 : (i : ℝ) ≤ 10 := by exact_mod_cast hi
  dsimp only [envFree]
  rw [car_radius_val]
  refine ⟨⟨?_, ?_, ?_, ?_⟩, by simp⟩ <;> nlinarith

/-- One tree extension of the concrete run. -/
theorem extend_run :
    extend_tree envFree 25 (RNode.root 100 100) 105 100 =
      some (RNode.child 105 100 5 (RNode.root 100 100)) := by
  unfold extend_tree
  dsimp only [RNode.x, RNode.y, RNode.cost]
  rw [show ((105 : ℝ) - 100) ^ 2 + ((100 : ℝ) - 100) ^ 2 = 25 by norm_num, sqrt25]
  rw [if_neg (by norm_num : ¬(5 : ℝ) = 0)]
  rw [show (100 : ℝ) + (105 - 100) / 5 * min (25 : ℝ) 5 = 105 by norm_num]
  rw [show (100 : ℝ) + (100 - 100) / 5 * min (25 : ℝ) 5 = 100 by norm_num]
  rw [clear_run]
  simp only [if_true]
  rw [distR_same_y]
  norm_num

/-- Full evaluation of the concrete planning run: the returned path and the
final tree. -/
theorem plan_run_eval :
    plan envFree prm0 100 100 105 100 [(105, 100)] =
      (some [(100, 100), (105, 100), (105, 100)],
       [RNode.root 100 100, RNode.child 105 100 5 (RNode.root 100 100)]) := by
  unfold plan planLoop prm0
  dsimp only
  rw [show get_nearest_node [RNode.root 100 100] 105 100 =
        some (RNode.root 100 100) from rfl]
  dsimp only
  rw [extend_run]
  dsimp only [RNode.x, RNode.y]
  rw [distR_same_y]
  rw [if_pos (by norm_num : |(105 : ℝ) - 105| < 35)]
  simp [extract_path, extract_collect]

/-- C3 witness: the endpoint theorem applied to the concrete successful run. -/
theorem c3_plan_endpoints_witness :
    (plan envFree prm0 100 100 105 100 [(105, 100)]).1 =
        some [(100, 100), (105, 100), (105, 100)] ∧
      (([((100 : ℝ), (100 : ℝ)), (105, 100), (105, 100)]).head? = some (100, 100) ∧
       ([((100 : ℝ), (100 : ℝ)), (105, 100), (105, 100)]).getLast? = some (105, 100)) :=
  ⟨by rw [plan_run_eval],
   c3_plan_endpoints envFree prm0 100 100 105 100 [(105, 100)] _
     (by rw [plan_run_eval])⟩

/-- C6 witness: the cost-invariant theorem applied to the non-root node of
the concrete run's final tree. -/
theorem c6_tree_cost_invariant_witness :
    RNode.child 105 100 5 (RNode.root 100 100) ∈
        (plan envFree prm0 100 100 105 100 [(105, 100)]).2 ∧
      costOk (RNode.child 105 100 5 (RNode.root 100 100)) :=
  ⟨by rw [plan_run_eval]; simp,
   c6_tree_cost_invariant envFree prm0 100 100 105 100 [(105, 100)] _
     (by rw [plan_run_eval]; simp)⟩

/-! ## Concrete controller scenarios -/

/-- A straight path along the x-axis with waypoints 0, 10, 100. -/
def pathC2 : List (ℝ × ℝ) := [(0, 0), (10, 0), (100, 0)]

/-- Controller (lookahead 40) tracking `pathC2` from index 0. -/
def stC2 : PPCtrl := ⟨40, pathC2, 0⟩

/-- A car at the path start (0, 0), heading 0. -/
def carA : CarS := ⟨0, 0, 0, 0, 0, 0, 0⟩

/-- The same car after advancing along the path to (60, 0). -/
def carB : CarS := ⟨60, 0, 0, 0, 0, 0, 0⟩

/-- Controller (lookahead 40) on the two-point path [(0,0), (24,32)]. -/
def stC1 : PPCtrl := ⟨40, [(0, 0), (24, 32)], 0⟩

/-- Method `calculate_steering` leaves behind exactly the state of its lookahead
search. -/
theorem calculate_steering_snd (car : CarS) (st : PPCtrl) :
    (PP.calculate_steering car st).2 = (PP.get_lookahead_point car st).2 := by
  unfold PP.calculate_steering
  split
  next h =>
    unfold PP.get_lookahead_point
    rw [if_pos h]
  next h =>
    cases hlp : PP.get_lookahead_point car st with
    | mk opt st' => cases opt <;> simp [hlp]

/-- First lookahead call of the C2 scenario: from pose (0,0) and index 0 the
scan finds waypoint 2 at distance 100 ≥ 40 and stores index 1. -/
theorem c2_stepA : (PP.get_lookahead_point carA stC2).2 = ⟨40, pathC2, 1⟩ := by
  unfold PP.get_lookahead_point
  rw [if_neg (by simp [stC2, pathC2])]
  norm_num [stC2, pathC2, carA, lookaheadScan, distR_same_y]

/-- Second lookahead call of the C2 scenario: from pose (60,0) and index 1
the scan finds waypoint 1 itself at distance 50 ≥ 40 and stores index 0. -/
theorem c2_stepB :
    (PP.get_lookahead_point carB (⟨40, pathC2, 1⟩ : PPCtrl)).2 = ⟨40, pathC2, 0⟩ := by
  unfold PP.get_lookahead_point
  rw [if_neg (by simp [pathC2])]
  norm_num [pathC2, carB, lookaheadScan, distR_same_y]

/-- C2 counterexample: with the fixed path [(0,0),(10,0),(100,0)] and the
pose advancing monotonically along it from (0,0) to (60,0), the waypoint
index set by successive `calculate_steering` calls drops from 1 back to 0,
refuting the claimed non-decrease. -/
theorem c2_counterexample :
    ((PP.calculate_steering carA (PP.set_path (PP.init 40) pathC2)).2).current_waypoint_index = 1 ∧
      ((PP.calculate_steering carB
          (PP.calculate_steering carA
            (PP.set_path (PP.init 40) pathC2)).2).2).current_waypoint_index = 0 := by
  have hset : PP.set_path (PP.init 40) pathC2 = stC2 := rfl
  rw [hset]
  have h1 : (PP.calculate_steering carA stC2).2 = ⟨40, pathC2, 1⟩ := by
    rw [calculate_steering_snd, c2_stepA]
  constructor
  · rw [h1]
  · rw [h1, calculate_steering_snd, c2_stepB]

/-- C10: `calculate_speed` is not a pure query: starting from a freshly set
path, one call moves `current_waypoint_index` from 0 to 1 (via its internal
`calculate_steering`), and `get_progress` changes accordingly from 0 to 1/2. -/
theorem c10_calculate_speed_mutates_state :
    (PP.set_path (PP.init 40) pathC2).current_waypoint_index = 0 ∧
      ((PP.calculate_speed carA (PP.set_path (PP.init 40) pathC2)
          none).2).current_waypoint_index = 1 ∧
      PP.get_progress ((PP.calculate_speed carA (PP.set_path (PP.init 40) pathC2) none).2) ≠
        PP.get_progress (PP.set_path (PP.init 40) pathC2) := by
  have hset : PP.set_path (PP.init 40) pathC2 = stC2 := rfl
  have h2 : (PP.calculate_speed carA stC2 none).2 = ⟨40, pathC2, 1⟩ := by
    rw [calculate_speed_state, calculate_steering_snd, c2_stepA]
  refine ⟨rfl, by rw [hset, h2], ?_⟩
  rw [hset, h2]
  norm_num [PP.get_progress, stC2, pathC2]

/-- The C1 scenario is in the path-complete state: the final waypoint is 40
units away, below the threshold 50. -/
theorem c1_complete : PP.is_path_complete carA stC1 50 = true := by
  unfold PP.is_path_complete
  simp only [stC1, carA, List.getLast?_cons_cons, List.getLast?_singleton,
    decide_eq_true_eq]
  norm_num [distR_24_32]

/-- Lookahead call of the C1 scenario: waypoint (24,32) is exactly 40 away,
so it is returned and the index stays 0. -/
theorem c1_lookahead : PP.get_lookahead_point carA stC1 = (some (24, 32), stC1) := by
  unfold PP.get_lookahead_point
  rw [if_neg (by simp [stC1])]
  norm_num [stC1, carA, lookaheadScan, distR_same_y, distR_24_32]

/-- The steering value of the C1 scenario, in closed form. -/
theorem c1_steering_val :
    (PP.calculate_steering carA stC1).1 =
      clip (degrees (arctan2 (2 * wheelbase * Real.sin (arctan2 32 24)) 40))
        (-CAR_MAX_STEERING) CAR_MAX_STEERING := by
  unfold PP.calculate_steering
  rw [if_neg (by simp [stC1])]
  rw [c1_lookahead]
  norm_num [stC1, carA, radians]

/-- The steering value of the C1 scenario is strictly positive: the lookahead
point lies ahead and to the left, so the pure-pursuit law commands a left
turn. -/
theorem c1_steering_pos : 0 < (PP.calculate_steering carA stC1).1 := by
  rw [c1_steering_val]
  have hw : 0 < wheelbase := by norm_num [wheelbase, CAR_LENGTH]
  have hsin : 0 < Real.sin (arctan2 32 24) := by
    unfold arctan2
    rw [if_pos (by norm_num : (0 : ℝ) < 24)]
    rw [Real.sin_arctan]
    positivity
  have hnum : 0 < 2 * wheelbase * Real.sin (arctan2 32 24) :=
    mul_pos (mul_pos two_pos hw) hsin
  have harct : 0 < arctan2 (2 * wheelbase * Real.sin (arctan2 32 24)) 40 := by
    unfold arctan2
    rw [if_pos (by norm_num : (0 : ℝ) < 40)]
    have h := Real.arctan_strictMono
      (show (0 : ℝ) < 2 * wheelbase * Real.sin (arctan2 32 24) / 40 by positivity)
    rwa [Real.arctan_zero] at h
  have hdeg : 0 < degrees (arctan2 (2 * wheelbase * Real.sin (arctan2 32 24)) 40) := by
    unfold degrees
    exact div_pos (mul_pos harct (by norm_num)) Real.pi_pos
  unfold clip CAR_MAX_STEERING
  exact lt_min (lt_max_iff.mpr (Or.inl hdeg)) (by norm_num)

/-- The speed returned in the C1 scenario with target 5/2: the car is 40
units from the goal, so the value is (5/2) · min(0.5, 0.4) = 1, with no
turn-factor applied. -/
theorem c1_speed_val : (PP.calculate_speed carA stC1 (some (5 / 2))).1 = 1 := by
  unfold PP.calculate_speed
  dsimp only
  rw [if_pos c1_complete]
  rw [show stC1.path.getLast? = some ((24 : ℝ), (32 : ℝ)) from by simp [stC1]]
  dsimp only
  rw [show distR carA.x carA.y (24 : ℝ) (32 : ℝ) = 40 from by
    simp only [carA]
    exact distR_24_32]
  rw [if_pos (by norm_num : (40 : ℝ) < 100)]
  norm_num [min_def]

/-- C1 counterexample: in a concrete near-goal state with nonzero steering,
`calculate_speed` returns 1, whereas the claimed formula — the turn-scaled
value further scaled by the ease-in — is strictly smaller, so the ease-in
replaces rather than multiplies the turn scaling. -/
theorem c1_counterexample :
    PP.is_path_complete carA stC1 50 = true ∧
      distR carA.x carA.y 24 32 < 100 ∧
      (PP.calculate_speed carA stC1 (some (5 / 2))).1 ≠
        5 / 2 * (1 - 0.5 * (|(PP.calculate_steering carA stC1).1| / CAR_MAX_STEERING)) *
          min 0.5 (distR carA.x carA.y 24 32 / 100) := by
  have hd : distR carA.x carA.y 24 32 = 40 := by
    simp only [carA]
    exact distR_24_32
  refine ⟨c1_complete, by rw [hd]; norm_num, ?_⟩
  rw [c1_speed_val, hd]
  have hpos : 0 < (PP.calculate_steering carA stC1).1 := c1_steering_pos
  rw [abs_of_pos hpos]
  rw [show min (0.5 : ℝ) (40 / 100) = 2 / 5 by norm_num [min_def]]
  rw [CAR_MAX_STEERING]
  intro heq
  have : (PP.calculate_steering carA stC1).1 = 0 := by linarith
  linarith

/-- C1 (amended): once the path is complete and the final waypoint is within
100 units, `calculate_speed` returns `target_speed * min(0.5, distance/100)`
alone — the near-goal ease-in replaces the turn-scaled value instead of
multiplying it. -/
theorem c1_near_goal_speed (car : CarS) (st : PPCtrl) (t : ℝ) (g : ℝ × ℝ)
    (hg : st.path.getLast? = some g)
    (hc : PP.is_path_complete car st 50 = true)
    (hd : distR car.x car.y g.1 g.2 < 100) :
    (PP.calculate_speed car st (some t)).1 =
      t * min 0.5 (distR car.x car.y g.1 g.2 / 100) := by
  unfold PP.calculate_speed
  dsimp only
  rw [if_pos hc, hg]
  dsimp only
  rw [if_pos hd]
  simp

/-- C1 witness: the amended near-goal formula evaluated in the concrete
scenario (goal 40 units away, target speed 5/2). -/
theorem c1_near_goal_speed_witness :
    stC1.path.getLast? = some ((24 : ℝ), (32 : ℝ)) ∧
      PP.is_path_complete carA stC1 50 = true ∧
      distR carA.x carA.y 24 32 < 100 ∧
      (PP.calculate_speed carA stC1 (some (5 / 2))).1 =
        5 / 2 * min 0.5 (distR carA.x carA.y 24 32 / 100) :=
  ⟨by simp [stC1],
   c1_complete,
   by simp only [carA]; rw [distR_24_32]; norm_num,
   c1_near_goal_speed carA stC1 (5 / 2) (24, 32) (by simp [stC1])
     c1_complete
     (by simp only [carA]; rw [distR_24_32]; norm_num)⟩

end AVSim
